import Mathlib

set_option maxHeartbeats 1000000

namespace MemberIdShare

/-! Shallow embedding of the verification-flow controller found in the
repository's single Svelte component.  Pure logic (validation, identifier
derivation, state resets) is translated directly; each awaited collaborator
call (identity provider, record store, clipboard, timers) is modelled by an
oracle parameter giving that call's outcome, and every handler additionally
returns the trace of collaborator calls it performed. -/

/-- A JavaScript value stored in one column of a `Record<string, any>` row.
`truthy` mirrors JavaScript truthiness (the `value` test in the
`filter(([key, value]) => key !== 'email' && value)` step) and `toStr`
mirrors `String(value)`. -/
inductive Value where
  | vNull : Value
  | vStr (s : String) : Value
  | vNum (n : Int) : Value
  | vBool (b : Bool) : Value
deriving Repr, DecidableEq

def Value.truthy : Value → Bool
  | .vNull => false
  | .vStr s => !s.isEmpty
  | .vNum n => n != 0
  | .vBool b => b

def Value.toStr : Value → String
  | .vNull => "null"
  | .vStr s => s
  | .vNum n => toString n
  | .vBool b => if b then "true" else "false"

/-- A record row: column names mapped to values, in object-key order. -/
abbrev Row := List (String × Value)

/-- `value.trim()`: strip leading and trailing whitespace.  (Defined by
structural recursion over the character list so that it evaluates inside the
kernel; extensionally it is the standard trim.) -/
def jsTrim (t : String) : String :=
  String.mk (((t.toList.dropWhile Char.isWhitespace).reverse.dropWhile
    Char.isWhitespace).reverse)

/-- `email.toLowerCase()`. -/
def jsToLower (s : String) : String :=
  String.mk (s.toList.map Char.toLower)

/-- `key.replace(/_/g, ' ')`. -/
def underscoresToSpaces (s : String) : String :=
  String.mk (s.toList.map (fun c => if c == '_' then ' ' else c))

/-- The identifier derivation applied to a fetched row (source lines 64-69
and 184-189): keep the non-email columns whose value is truthy; the label is
the column name with underscores replaced by spaces and the value is the
column value coerced to a string. -/
def deriveIdentifiers (row : Row) : List (String × String) :=
  (row.filter (fun kv => kv.1 != "email" && kv.2.truthy)).map
    (fun kv => (underscoresToSpaces kv.1, kv.2.toStr))

inductive Step where
  | email : Step
  | code : Step
  | success : Step
deriving Repr, DecidableEq

/-- The component's mutable variables. -/
structure State where
  step : Step
  email : String
  code : String
  sending : Bool
  verifying : Bool
  emailError : Option String
  codeError : Option String
  generalError : Option String
  identifiers : List (String × String)
  copiedKey : Option String
  copyTimeout : Option Nat
  currentUserEmail : Option String
  isAdmin : Bool
  showAdmin : Bool
  adminRows : List Row
  adminColumns : List String
  adminLoading : Bool
  adminError : Option String
deriving Repr, DecidableEq

/-- The component's initial variable values. -/
def initState : State :=
  { step := Step.email, email := "", code := "", sending := false,
    verifying := false, emailError := none, codeError := none,
    generalError := none, identifiers := [], copiedKey := none,
    copyTimeout := none, currentUserEmail := none, isAdmin := false,
    showAdmin := false, adminRows := [], adminColumns := [],
    adminLoading := false, adminError := none }

/-- Outcome of one awaited collaborator call: it resolved with data (`ok`),
resolved with an error object whose `message` may be absent (`err`), or the
promise rejected and control lands in the `catch` block (`threw`). -/
inductive Fetch (α : Type) where
  | ok (a : α) : Fetch α
  | err (msg : Option String) : Fetch α
  | threw : Fetch α
deriving Repr, DecidableEq

/-- One collaborator call, as recorded in a handler's effect trace. -/
inductive Eff where
  | sendOtp (email : String) : Eff
  | verifyOtp (email token : String) : Eff
  | getUser : Eff
  | fetchRow (emailKey : Option String) : Eff
  | listRows (orderBy : String) (ascending : Bool) : Eff
  | authSignOut : Eff
  | clipboardWrite (value : String) : Eff
deriving Repr, DecidableEq

def ADMIN_EMAILS : List String :=
  ["oliverabreu@icloud.com", "katielawhun@raleighchristian.com",
   "pennyhowell@raleighchristian.com"]

def computeIsAdmin : Option String → Bool
  | none => false
  | some e => if e = "" then false else ADMIN_EMAILS.contains (jsToLower e)

def emailEmptyMsg : String := "Please enter your email address."
def emailFormatMsg : String := "Please enter a valid email address."
def codeEmptyMsg : String := "Please enter the 6-digit code."
def codeFormatMsg : String := "The code must be exactly 6 digits."
def noRowMsg : String := "No insurance info found for this email."
def noIdentifiersMsg : String := "No identifiers available for this user."
def sendFallbackMsg : String := "Unable to send code. Please try again."
def sendThrewMsg : String := "Something went wrong while sending the code."
def verifyFallbackMsg : String := "Invalid or expired code."
def verifyThrewMsg : String := "Something went wrong during verification."
def adminLoadFailMsg : String := "Failed to load admin data."
def adminLoadThrewMsg : String := "Unexpected error while loading admin data."

/-- Character class `[^\s@]` of the email regex. -/
def goodChar (c : Char) : Bool := !c.isWhitespace && c != '@'

/-- Split a character list at the first occurrence of `ch`. -/
def splitAtChar (ch : Char) : List Char → Option (List Char × List Char)
  | [] => none
  | c :: cs =>
    if c = ch then some ([], cs)
    else
      match splitAtChar ch cs with
      | some (l, r) => some (c :: l, r)
      | none => none

/-- True when the list contains a `.` that is not its last element. -/
def hasDotNotLast : List Char → Bool
  | [] => false
  | c :: rest => (c == '.' && !rest.isEmpty) || hasDotNotLast rest

/-- The domain part matches `[^\s@]+\.[^\s@]+` (character-class membership
being checked separately) exactly when a `.` occurs at a position that is
neither first nor last. -/
def dotSplitOk : List Char → Bool
  | [] => false
  | _ :: rest => hasDotNotLast rest

/-- Executable semantics of the source regex `^[^\s@]+@[^\s@]+\.[^\s@]+$`
(line 99): the string splits at its unique `@` into a nonempty local part
and a domain, neither containing whitespace or `@`, and the domain splits at
some `.` into two nonempty pieces. -/
def emailPattern (t : String) : Bool :=
  match splitAtChar '@' t.toList with
  | none => false
  | some (l, d) =>
    !l.isEmpty && l.all goodChar && d.all goodChar && dotSplitOk d

/-- Executable semantics of the source regex `^\d{6}$` (line 114). -/
def sixDigits (t : String) : Bool :=
  t.length == 6 && t.toList.all Char.isDigit

/-- `validateEmail` (lines 93-106): trims, reports a field error for a blank
or pattern-violating address, clears the field error otherwise. -/
def validateEmail (s : State) : State × Bool :=
  let trimmed := jsTrim s.email
  if trimmed = "" then ({ s with emailError := some emailEmptyMsg }, false)
  else if !(emailPattern trimmed) then
    ({ s with emailError := some emailFormatMsg }, false)
  else ({ s with emailError := none }, true)

/-- `validateCode` (lines 108-120). -/
def validateCode (s : State) : State × Bool :=
  let trimmed := jsTrim s.code
  if trimmed = "" then ({ s with codeError := some codeEmptyMsg }, false)
  else if !(sixDigits trimmed) then
    ({ s with codeError := some codeFormatMsg }, false)
  else ({ s with codeError := none }, true)

/-- `handleEmailSubmit` (lines 122-146), given the outcome of the
`signInWithOtp` call.  Validation failure returns before any call; the
`finally` clause clears the busy flag on every path. -/
def handleEmailSubmit (s0 : State) (r : Fetch Unit) : State × List Eff :=
  let v := validateEmail { s0 with generalError := none }
  if v.2 = false then (v.1, [])
  else
    let s1 := { v.1 with sending := true }
    let t := [Eff.sendOtp (jsTrim s0.email)]
    match r with
    | .ok _ => ({ s1 with step := Step.code, sending := false }, t)
    | .err m =>
      ({ s1 with generalError := some (m.getD sendFallbackMsg), sending := false }, t)
    | .threw =>
      ({ s1 with generalError := some sendThrewMsg, sending := false }, t)

/-- Oracle for the three awaited calls `handleCodeSubmit` can make:
`verifyOtp`, `getUser` (whose payload is `some e?` for a present user with
optional email, `none` for no user), and the `.single()` row fetch (whose
`ok none` case is a resolved call with null data). -/
structure CodeOracle where
  verifyRes : Fetch Unit
  userRes : Fetch (Option (Option String))
  rowRes : Fetch (Option Row)
deriving Repr, DecidableEq

/-- Continuation of `handleCodeSubmit` after a successful verify and the
`getUser` read (lines 168-203): refresh the user and admin flag, fetch the
row, derive identifiers, and either fail with a general error or move to
`success`. -/
def afterUserFetch (s3 : State) (userEmail : Option String) (o : CodeOracle)
    (t1 : List Eff) : State × List Eff :=
  let s4 := { s3 with currentUserEmail := userEmail,
                      isAdmin := computeIsAdmin userEmail }
  let t2 := t1 ++ [Eff.fetchRow userEmail]
  match o.rowRes with
  | .threw => ({ s4 with generalError := some verifyThrewMsg, verifying := false }, t2)
  | .err _ => ({ s4 with generalError := some noRowMsg, verifying := false }, t2)
  | .ok none => ({ s4 with generalError := some noRowMsg, verifying := false }, t2)
  | .ok (some row) =>
    let ids := deriveIdentifiers row
    let s5 := { s4 with identifiers := ids }
    if ids.isEmpty then
      ({ s5 with generalError := some noIdentifiersMsg, verifying := false }, t2)
    else
      ({ s5 with copiedKey := none, step := Step.success, verifying := false }, t2)

/-- `handleCodeSubmit` (lines 148-204). -/
def handleCodeSubmit (s0 : State) (o : CodeOracle) : State × List Eff :=
  let v := validateCode { s0 with generalError := none }
  if v.2 = false then (v.1, [])
  else
    let s3 := { v.1 with verifying := true }
    let t0 := [Eff.verifyOtp (jsTrim s0.email) (jsTrim s0.code)]
    match o.verifyRes with
    | .threw => ({ s3 with generalError := some verifyThrewMsg, verifying := false }, t0)
    | .err m => ({ s3 with generalError := some (m.getD verifyFallbackMsg), verifying := false }, t0)
    | .ok _ =>
      let t1 := t0 ++ [Eff.getUser]
      match o.userRes with
      | .threw => ({ s3 with generalError := some verifyThrewMsg, verifying := false }, t1)
      | .err _ => afterUserFetch s3 none o t1
      | .ok u => afterUserFetch s3 (u.getD none) o t1

/-- Oracle for the two awaited calls the `onMount` restore can make. -/
structure MountOracle where
  userRes : Fetch (Option (Option String))
  rowRes : Fetch (Option Row)
deriving Repr, DecidableEq

/-- The `onMount` session restore (lines 48-77), starting from the
component's initial variable values.  Every early `return` and the `catch`
block leave the state as accumulated so far, without touching any error
field. -/
def restoreSession (o : MountOracle) : State × List Eff :=
  match o.userRes with
  | .threw => (initState, [Eff.getUser])
  | .err _ => (initState, [Eff.getUser])
  | .ok none => (initState, [Eff.getUser])
  | .ok (some e) =>
    let s1 := { initState with currentUserEmail := e,
                               isAdmin := computeIsAdmin e }
    let t1 := [Eff.getUser, Eff.fetchRow e]
    match o.rowRes with
    | .threw => (s1, t1)
    | .err _ => (s1, t1)
    | .ok none => (s1, t1)
    | .ok (some row) =>
      let ids := deriveIdentifiers row
      let s2 := { s1 with identifiers := ids }
      if ids.isEmpty then (s2, t1)
      else ({ s2 with step := Step.success }, t1)

/-- `resetAll` (lines 79-91).  It performs no collaborator call, so its
trace is empty; note that it does not touch `copyTimeout`,
`currentUserEmail`, `isAdmin`, or any of the admin data fields. -/
def resetAll (s : State) : State × List Eff :=
  ({ s with step := Step.email, email := "", code := "", sending := false,
            verifying := false, emailError := none, codeError := none,
            generalError := none, identifiers := [], copiedKey := none,
            showAdmin := false }, [])

/-- `handleSignOut` (lines 224-232): the provider result is ignored (an
error object is not even destructured, and a rejection is caught and
logged), and the `finally` clause always runs `resetAll`. -/
def handleSignOut (s : State) (r : Fetch Unit) : State × List Eff :=
  match r with
  | .ok _ => ((resetAll s).1, [Eff.authSignOut])
  | .err _ => ((resetAll s).1, [Eff.authSignOut])
  | .threw => ((resetAll s).1, [Eff.authSignOut])

/-- The environment's timer table: the id the next `setTimeout` will return,
and the pending timers as `(id, fireTime)` pairs. -/
structure TimerSys where
  nextId : Nat
  pending : List (Nat × Nat)
deriving Repr, DecidableEq

/-- `copyIdentifier` (lines 206-222) at wall-clock time `now`, given whether
the clipboard write succeeded.  On success it cancels the previously tracked
timeout (if any), records the copied key, and schedules a clearance 2000 ms
out; on failure (`writeText` rejected) the `catch` block only logs, leaving
the state and timers untouched. -/
def copyIdentifier (s : State) (ts : TimerSys) (key value : String)
    (clipOk : Bool) (now : Nat) : State × TimerSys × List Eff :=
  if clipOk then
    let ts1 :=
      match s.copyTimeout with
      | some tid => { ts with pending := ts.pending.filter (fun p => p.1 != tid) }
      | none => ts
    ({ s with copiedKey := some key, copyTimeout := some ts1.nextId },
     { nextId := ts1.nextId + 1,
       pending := ts1.pending ++ [(ts1.nextId, now + 2000)] },
     [Eff.clipboardWrite value])
  else (s, ts, [Eff.clipboardWrite value])

/-- Expiry of a scheduled copy-clearance: if timer `tid` is still pending,
its callback runs (`copiedKey = null`) and it leaves the pending table. -/
def fireTimer (s : State) (ts : TimerSys) (tid : Nat) : State × TimerSys :=
  if (ts.pending.map Prod.fst).contains tid then
    ({ s with copiedKey := none },
     { ts with pending := ts.pending.filter (fun p => p.1 != tid) })
  else (s, ts)

/-- `openAdmin` (lines 236-264), given the outcome of the ordered
`select().order('email', { ascending: true })` fetch (`ok none` is a
resolved call with null data, which `data ?? []` turns into no rows). -/
def openAdmin (s : State) (o : Fetch (Option (List Row))) : State × List Eff :=
  let s1 := { s with adminError := none, adminLoading := true,
                     showAdmin := true }
  let t := [Eff.listRows "email" true]
  match o with
  | .err _ => ({ s1 with adminError := some adminLoadFailMsg, adminLoading := false }, t)
  | .threw => ({ s1 with adminError := some adminLoadThrewMsg, adminLoading := false }, t)
  | .ok rowsData =>
    let rows := rowsData.getD []
    let cols :=
      match rows.head? with
      | some first => (first.map Prod.fst).filter (fun k => k != "email")
      | none => []
    ({ s1 with adminRows := rows, adminColumns := cols,
               adminLoading := false }, t)

/-- `toggleAdminView` (lines 296-304): entering the admin view runs
`openAdmin` (which fetches), leaving it merely clears the flag. -/
def toggleAdminView (s : State) (o : Fetch (Option (List Row))) :
    State × List Eff :=
  if !s.showAdmin then openAdmin s o
  else ({ s with showAdmin := false }, [])

/-! Supporting lemmas: the executable email matcher agrees with the
declarative `local@domain.tld` shape the specification describes. -/

theorem splitAtChar_iff (ch : Char) (cs l r : List Char) :
    splitAtChar ch cs = some (l, r) ↔ (cs = l ++ ch :: r ∧ ch ∉ l) := by
  induction cs generalizing l r with
  | nil =>
    constructor
    · intro h
      simp [splitAtChar] at h
    · rintro ⟨h, -⟩
      exact absurd h (by simp)
  | cons c cs ih =>
    by_cases hc : c = ch
    · subst hc
      constructor
      · intro h
        simp [splitAtChar] at h
        obtain ⟨hl, hr⟩ := h
        subst hl
        subst hr
        simp
      · rintro ⟨heq, hmem⟩
        cases l with
        | nil =>
          simp at heq
          simp [splitAtChar, heq]
        | cons a l2 =>
          have ha : a = c := by
            have := congrArg (fun xs => List.head? xs) heq
            simpa using this.symm
          exact absurd (by simp [ha]) hmem
    · constructor
      · intro h
        simp only [splitAtChar] at h
        rw [if_neg hc] at h
        cases h2 : splitAtChar ch cs with
        | none =>
          rw [h2] at h
          simp at h
        | some p =>
          obtain ⟨l0, r0⟩ := p
          rw [h2] at h
          simp at h
          obtain ⟨hcs, hmem⟩ := (ih l0 r0).mp h2
          obtain ⟨hl, hr⟩ := h
          subst hr
          subst hl
          subst hcs
          refine ⟨by simp, ?_⟩
          intro hx
          rcases List.mem_cons.mp hx with h3 | h3
          · exact hc h3.symm
          · exact hmem h3
      · rintro ⟨heq, hmem⟩
        cases l with
        | nil =>
          have : c = ch := by
            have := congrArg (fun xs => List.head? xs) heq
            simpa using this
          exact absurd this hc
        | cons a l2 =>
          have ha : a = c := by
            have := congrArg (fun xs => List.head? xs) heq
            simpa using this.symm
          subst ha
          have hcs : cs = l2 ++ ch :: r := by
            have := congrArg List.tail heq
            simpa using this
          have hm2 : ch ∉ l2 := fun hx => hmem (List.mem_cons_of_mem _ hx)
          have := (ih l2 r).mpr ⟨hcs, hm2⟩
          simp only [splitAtChar]
          rw [if_neg hc, this]

theorem hasDotNotLast_iff (cs : List Char) :
    hasDotNotLast cs = true ↔ ∃ x y : List Char, cs = x ++ '.' :: y ∧ y ≠ [] := by
  induction cs with
  | nil =>
    simp only [hasDotNotLast]
    constructor
    · intro h
      cases h
    · rintro ⟨x, y, hxy, -⟩
      exact absurd hxy (by simp)
  | cons c rest ih =>
    simp only [hasDotNotLast, Bool.or_eq_true, Bool.and_eq_true, beq_iff_eq,
      Bool.not_eq_true', ih]
    constructor
    · rintro (⟨hc, hr⟩ | ⟨x, y, hxy, hy⟩)
      · refine ⟨[], rest, by simp [hc], ?_⟩
        intro hnil
        rw [hnil] at hr
        cases hr
      · exact ⟨c :: x, y, by simp [hxy], hy⟩
    · rintro ⟨x, y, hxy, hy⟩
      cases x with
      | nil =>
        left
        have hc : c = '.' := by
          have := congrArg (fun xs => List.head? xs) hxy
          simpa using this
        have hr : rest = y := by
          have := congrArg List.tail hxy
          simpa using this
        refine ⟨hc, ?_⟩
        rw [hr]
        cases y with
        | nil => exact absurd rfl hy
        | cons a b => rfl
      | cons a x2 =>
        right
        have ha : a = c := by
          have := congrArg (fun xs => List.head? xs) hxy
          simpa using this.symm
        have hrest : rest = x2 ++ '.' :: y := by
          have := congrArg List.tail hxy
          simpa using this
        exact ⟨x2, y, hrest, hy⟩

/-- The `local@domain.tld` shape the specification describes: a nonempty
local part, a single `@`, and a domain splitting at some `.` into two
nonempty pieces, with no whitespace and no `@` in any part. -/
def EmailShape (t : String) : Prop :=
  ∃ L D T : List Char,
    t.toList = L ++ '@' :: (D ++ '.' :: T) ∧ L ≠ [] ∧ D ≠ [] ∧ T ≠ [] ∧
    (∀ c ∈ L, goodChar c = true) ∧ (∀ c ∈ D, goodChar c = true) ∧
    (∀ c ∈ T, goodChar c = true)

theorem emailPattern_iff (t : String) : emailPattern t = true ↔ EmailShape t := by
  unfold emailPattern
  cases h : splitAtChar '@' t.toList with
  | none =>
    constructor
    · intro hfalse
      cases hfalse
    · rintro ⟨L, D, T, heq, hL, hD, hT, hgL, hgD, hgT⟩
      have hnot : '@' ∉ L := by
        intro hmem
        have := hgL '@' hmem
        simp [goodChar] at this
      have h2 : splitAtChar '@' t.toList = some (L, D ++ '.' :: T) :=
        (splitAtChar_iff '@' t.toList L (D ++ '.' :: T)).mpr ⟨heq, hnot⟩
      rw [h] at h2
      cases h2
  | some p =>
    obtain ⟨l, d⟩ := p
    obtain ⟨hcs, hmem⟩ := (splitAtChar_iff '@' t.toList l d).mp h
    simp only [Bool.and_eq_true, Bool.not_eq_true', List.all_eq_true]
    constructor
    · rintro ⟨⟨⟨hne, hgl⟩, hgd⟩, hdot⟩
      cases d with
      | nil => simp [dotSplitOk] at hdot
      | cons d0 rest =>
        obtain ⟨x, y, hxy, hy⟩ :=
          (hasDotNotLast_iff rest).mp (by simpa [dotSplitOk] using hdot)
        refine ⟨l, d0 :: x, y, ?_, ?_, by simp, hy, ?_, ?_, ?_⟩
        · rw [hcs, hxy]
          simp
        · intro hnil
          rw [hnil] at hne
          simp at hne
        · intro c hcmem
          exact hgl c hcmem
        · intro c hcmem
          refine hgd c ?_
          rcases List.mem_cons.mp hcmem with h3 | h3
          · simp [h3]
          · rw [hxy]
            exact List.mem_cons_of_mem _ (List.mem_append_left _ h3)
        · intro c hcmem
          refine hgd c ?_
          rw [hxy]
          exact List.mem_cons_of_mem _ (List.mem_append_right _
            (List.mem_cons_of_mem _ hcmem))
    · rintro ⟨L, D, T, heq, hL, hD, hT, hgL, hgD, hgT⟩
      have hnot : '@' ∉ L := by
        intro hm
        have := hgL '@' hm
        simp [goodChar] at this
      have h2 : splitAtChar '@' t.toList = some (L, D ++ '.' :: T) :=
        (splitAtChar_iff '@' t.toList L (D ++ '.' :: T)).mpr ⟨heq, hnot⟩
      rw [h] at h2
      injection h2 with h3
      have hlL : l = L := congrArg Prod.fst h3
      have hdD : d = D ++ '.' :: T := congrArg Prod.snd h3
      subst hlL
      subst hdD
      refine ⟨⟨⟨?_, ?_⟩, ?_⟩, ?_⟩
      · cases l with
        | nil => exact absurd rfl hL
        | cons a b => rfl
      · exact hgL
      · intro c hcmem
        rcases List.mem_append.mp hcmem with h4 | h4
        · exact hgD c h4
        · rcases List.mem_cons.mp h4 with h5 | h5
          · simp [h5, goodChar]
          · exact hgT c h5
      · cases D with
        | nil => exact absurd rfl hD
        | cons a b =>
          simp only [dotSplitOk, List.cons_append]
          refine (hasDotNotLast_iff (b ++ '.' :: T)).mpr ⟨b, T, rfl, hT⟩

theorem sixDigits_ne_empty (t : String) (h : sixDigits t = true) : t ≠ "" := by
  intro he
  rw [he] at h
  exact absurd h (by decide)

theorem emailPattern_ne_empty (t : String) (h : emailPattern t = true) :
    t ≠ "" := by
  intro he
  rw [he] at h
  exact absurd h (by decide)

/-- `afterUserFetch` never writes the code field error. -/
theorem afterUserFetch_codeError (s3 : State) (ue : Option String)
    (o : CodeOracle) (t1 : List Eff) :
    (afterUserFetch s3 ue o t1).1.codeError = s3.codeError := by
  unfold afterUserFetch
  rcases o with ⟨vr, ur, rr⟩
  rcases rr with a | m | _
  · rcases a with _ | row
    · simp
    · simp only []
      split <;> simp
  · simp
  · simp

/-- The trace of `afterUserFetch` is the accumulated trace plus the row
fetch. -/
theorem afterUserFetch_trace (s3 : State) (ue : Option String)
    (o : CodeOracle) (t1 : List Eff) :
    (afterUserFetch s3 ue o t1).2 = t1 ++ [Eff.fetchRow ue] := by
  unfold afterUserFetch
  rcases o with ⟨vr, ur, rr⟩
  rcases rr with a | m | _
  · rcases a with _ | row
    · simp
    · simp only []
      split <;> simp
  · simp
  · simp

/-- C3: session restoration is silent.  For every outcome of the startup
restore — no session, provider error or exception, row-fetch failure, or an
empty identifier derivation — no general (or field) error is ever set, the
state is `success` exactly when every step succeeded and at least one
identifier was derived, and otherwise the flow starts at `email`. -/
theorem restore_session_silent (o : MountOracle) :
    (restoreSession o).1.generalError = none ∧
    (restoreSession o).1.emailError = none ∧
    (restoreSession o).1.codeError = none ∧
    ((restoreSession o).1.step = Step.success ↔
      ∃ e row, o.userRes = Fetch.ok (some e) ∧ o.rowRes = Fetch.ok (some row) ∧
        deriveIdentifiers row ≠ []) ∧
    ((restoreSession o).1.step = Step.email ∨
     (restoreSession o).1.step = Step.success) := by
  rcases o with ⟨ur, rr⟩
  rcases ur with e | m | _
  · rcases e with _ | e
    · simp [restoreSession, initState]
    · rcases rr with a | m | _
      · rcases a with _ | row
        · simp [restoreSession, initState]
        · by_cases hid : deriveIdentifiers row = []
          · simp [restoreSession, initState, hid, List.isEmpty_iff]
          · simp [restoreSession, initState, hid, List.isEmpty_iff]
      · simp [restoreSession, initState]
      · simp [restoreSession, initState]
  · simp [restoreSession, initState]
  · simp [restoreSession, initState]

/-- Witness for the restore theorem at a concrete oracle. -/
def mountOracleFail : MountOracle := ⟨Fetch.err (some "offline"), Fetch.threw⟩

theorem restore_session_silent_witness :
    (restoreSession mountOracleFail).1.generalError = none ∧
    (restoreSession mountOracleFail).1.step = Step.email := by
  have h := restore_session_silent mountOracleFail
  refine ⟨h.1, ?_⟩
  rcases h.2.2.2.2 with h5 | h5
  · exact h5
  · exfalso
    obtain ⟨e, row, hu, -, -⟩ := h.2.2.2.1.mp h5
    exact absurd hu (by simp [mountOracleFail])

/-- C4: code validation gates `submitCode`.  A trimmed input that is not
exactly six decimal digits sets the empty-input or format field error,
leaves the state in `code`, and performs no collaborator call; a trimmed
six-digit input passes validation (field error cleared) and the verify call
is the first call attempted. -/
theorem submitCode_validation_gate (s : State) (o : CodeOracle)
    (hs : s.step = Step.code) :
    (sixDigits (jsTrim s.code) = false →
       (handleCodeSubmit s o).1.step = Step.code ∧
       (handleCodeSubmit s o).1.codeError =
         some (if jsTrim s.code = "" then codeEmptyMsg else codeFormatMsg) ∧
       (handleCodeSubmit s o).2 = []) ∧
    (sixDigits (jsTrim s.code) = true →
       (handleCodeSubmit s o).1.codeError = none ∧
       (handleCodeSubmit s o).2.head? =
         some (Eff.verifyOtp (jsTrim s.email) (jsTrim s.code))) := by
  constructor
  · intro hbad
    by_cases he : jsTrim s.code = ""
    · simp [handleCodeSubmit, validateCode, he, hs]
    · simp [handleCodeSubmit, validateCode, he, hbad, hs]
  · intro hgood
    have hne : jsTrim s.code ≠ "" := sixDigits_ne_empty _ hgood
    rcases o with ⟨vr, ur, rr⟩
    rcases vr with _ | m | _ <;> rcases ur with u | m2 | _ <;>
      simp [handleCodeSubmit, validateCode, hne, hgood,
        afterUserFetch_codeError, afterUserFetch_trace]

def sBadCode : State := { initState with step := Step.code, code := "12345" }
def sAtCode : State :=
  { initState with step := Step.code, email := "user@school.edu",
                   code := "123456" }
def rowEmailOnly : Row := [("email", Value.vStr "user@school.edu")]
def oDataless : CodeOracle :=
  ⟨Fetch.ok (), Fetch.ok (some (some "user@school.edu")),
   Fetch.ok (some rowEmailOnly)⟩

theorem submitCode_validation_gate_witness :
    ((handleCodeSubmit sBadCode oDataless).2 = [] ∧
       (handleCodeSubmit sBadCode oDataless).1.step = Step.code) ∧
    (handleCodeSubmit sAtCode oDataless).2.head? =
      some (Eff.verifyOtp (jsTrim sAtCode.email) (jsTrim sAtCode.code)) := by
  refine ⟨⟨?_, ?_⟩, ?_⟩
  · exact ((submitCode_validation_gate sBadCode oDataless rfl).1 (by decide)).2.2
  · exact ((submitCode_validation_gate sBadCode oDataless rfl).1 (by decide)).1
  · exact ((submitCode_validation_gate sAtCode oDataless rfl).2 (by decide)).2

/-- C5: email validation gates `submitEmail`.  An input whose trimmed form
does not have the `local@domain.tld` shape sets the empty-input or format
field error, leaves the state in `email`, and performs no provider call; a
well-formed input passes validation, clears the field error, and the
send-code call is attempted. -/
theorem submitEmail_validation_gate (s : State) (r : Fetch Unit)
    (hs : s.step = Step.email) :
    (¬ EmailShape (jsTrim s.email) →
       (handleEmailSubmit s r).1.emailError =
         some (if jsTrim s.email = "" then emailEmptyMsg else emailFormatMsg) ∧
       (handleEmailSubmit s r).1.step = Step.email ∧
       (handleEmailSubmit s r).2 = []) ∧
    (EmailShape (jsTrim s.email) →
       (handleEmailSubmit s r).1.emailError = none ∧
       (handleEmailSubmit s r).2 = [Eff.sendOtp (jsTrim s.email)]) := by
  constructor
  · intro hbad
    have hp : emailPattern (jsTrim s.email) = false := by
      cases hpv : emailPattern (jsTrim s.email)
      · rfl
      · exact absurd ((emailPattern_iff _).mp hpv) hbad
    by_cases he : jsTrim s.email = ""
    · simp [handleEmailSubmit, validateEmail, he, hs]
    · simp [handleEmailSubmit, validateEmail, he, hp, hs]
  · intro hgood
    have hp : emailPattern (jsTrim s.email) = true := (emailPattern_iff _).mpr hgood
    have hne : jsTrim s.email ≠ "" := emailPattern_ne_empty _ hp
    rcases r with _ | m | _ <;> simp [handleEmailSubmit, validateEmail, hne, hp]

def sBadEmail : State := { initState with email := "not-an-email" }
def sGoodEmail : State := { initState with email := "user@school.edu" }

theorem submitEmail_validation_gate_witness :
    ((handleEmailSubmit sBadEmail (Fetch.ok ())).2 = [] ∧
       (handleEmailSubmit sBadEmail (Fetch.ok ())).1.step = Step.email) ∧
    (handleEmailSubmit sGoodEmail (Fetch.ok ())).2 =
      [Eff.sendOtp (jsTrim sGoodEmail.email)] := by
  have hbad : ¬ EmailShape (jsTrim sBadEmail.email) := fun hsh =>
    absurd ((emailPattern_iff _).mpr hsh) (by decide)
  have hgood : EmailShape (jsTrim sGoodEmail.email) :=
    (emailPattern_iff _).mp (by decide)
  refine ⟨⟨?_, ?_⟩, ?_⟩
  · exact ((submitEmail_validation_gate sBadEmail (Fetch.ok ()) rfl).1 hbad).2.2
  · exact ((submitEmail_validation_gate sBadEmail (Fetch.ok ()) rfl).1 hbad).2.1
  · exact ((submitEmail_validation_gate sGoodEmail (Fetch.ok ()) rfl).2 hgood).2

/-- C7: `resetAll` clears every transient field, returns to `email`,
performs no collaborator call, and although it does not cancel a pending
copy-clear timer, such a timer firing after the reset still leaves the
copied marker empty (the clearance is implicit). -/
theorem reset_clears_transient_state (s : State) (ts : TimerSys) (tid : Nat) :
    (resetAll s).1.step = Step.email ∧ (resetAll s).1.email = "" ∧
    (resetAll s).1.code = "" ∧ (resetAll s).1.sending = false ∧
    (resetAll s).1.verifying = false ∧ (resetAll s).1.emailError = none ∧
    (resetAll s).1.codeError = none ∧ (resetAll s).1.generalError = none ∧
    (resetAll s).1.identifiers = [] ∧ (resetAll s).1.copiedKey = none ∧
    (resetAll s).1.showAdmin = false ∧ (resetAll s).2 = [] ∧
    (fireTimer (resetAll s).1 ts tid).1.copiedKey = none := by
  refine ⟨rfl, rfl, rfl, rfl, rfl, rfl, rfl, rfl, rfl, rfl, rfl, rfl, ?_⟩
  unfold fireTimer
  split <;> simp [resetAll]

/-- C9: on a successful admin fetch, the admin row set is exactly the rows
the store returned (requested sorted by email ascending, as the trace
records), and the editable column set is the first row's keys without
`email` — in particular empty when no rows came back. -/
theorem open_admin_success_shape (s : State) (rows : List Row) :
    (openAdmin s (Fetch.ok (some rows))).1.adminRows = rows ∧
    (openAdmin s (Fetch.ok (some rows))).2 = [Eff.listRows "email" true] ∧
    (∀ first rest, rows = first :: rest →
       ∀ k, k ∈ (openAdmin s (Fetch.ok (some rows))).1.adminColumns ↔
         (k ∈ first.map Prod.fst ∧ k ≠ "email")) ∧
    (rows = [] → (openAdmin s (Fetch.ok (some rows))).1.adminColumns = []) ∧
    (openAdmin s (Fetch.ok none)).1.adminRows = [] ∧
    (openAdmin s (Fetch.ok none)).1.adminColumns = [] := by
  refine ⟨rfl, rfl, ?_, ?_, rfl, rfl⟩
  · rintro first rest rfl k
    simp [openAdmin, List.mem_filter]
  · rintro rfl
    rfl

def rowsSample : List Row :=
  [[("email", Value.vStr "a@x.com"), ("plan", Value.vStr "1")]]

theorem open_admin_success_shape_witness :
    (openAdmin initState (Fetch.ok (some rowsSample))).1.adminRows = rowsSample ∧
    ("plan" ∈ (openAdmin initState (Fetch.ok (some rowsSample))).1.adminColumns ↔
      ("plan" ∈ [("email", Value.vStr "a@x.com"),
        ("plan", Value.vStr "1")].map Prod.fst ∧ "plan" ≠ "email")) := by
  have h := open_admin_success_shape initState rowsSample
  exact ⟨h.1, h.2.2.1 [("email", Value.vStr "a@x.com"),
    ("plan", Value.vStr "1")] [] rfl "plan"⟩

/-- C10: neither `resetAll` nor the unconditional reset at the end of
`handleSignOut` touches the admin row set, column set, loading flag, or
admin error; only the admin view flag is forced to `false`. -/
theorem reset_preserves_admin_data (s : State) (r : Fetch Unit) :
    (resetAll s).1.adminRows = s.adminRows ∧
    (resetAll s).1.adminColumns = s.adminColumns ∧
    (resetAll s).1.adminError = s.adminError ∧
    (resetAll s).1.adminLoading = s.adminLoading ∧
    (resetAll s).1.showAdmin = false ∧
    (handleSignOut s r).1 = (resetAll s).1 ∧
    (handleSignOut s r).1.adminRows = s.adminRows ∧
    (handleSignOut s r).1.adminColumns = s.adminColumns ∧
    (handleSignOut s r).1.adminError = s.adminError := by
  refine ⟨rfl, rfl, rfl, rfl, rfl, ?_, ?_, ?_, ?_⟩ <;>
    rcases r with _ | m | _ <;> rfl

/-- C8, as stated, is false: toggling the admin view away does not discard
the admin row set.  At this concrete state the view is hidden while the
previously loaded (non-empty) rows remain in memory, and no call is made. -/
def rowA : Row := [("email", Value.vStr "a@x.com"), ("plan", Value.vStr "1")]

def sAdminShown : State :=
  { initState with step := Step.success, isAdmin := true, showAdmin := true,
                   adminRows := [rowA], adminColumns := ["plan"] }

theorem toggle_away_keeps_rows_counterexample :
    (toggleAdminView sAdminShown (Fetch.ok none)).1.showAdmin = false ∧
    (toggleAdminView sAdminShown (Fetch.ok none)).1.adminRows = [rowA] ∧
    [rowA] ≠ ([] : List Row) ∧
    (toggleAdminView sAdminShown (Fetch.ok none)).2 = [] := by
  refine ⟨rfl, rfl, ?_, rfl⟩
  simp

/-- C8 (amended): `toggleAdminView` loads the admin data and shows the view
on every entry (each entry re-fetches, so pending edits are overwritten
then), and on exit it only hides the view — no fetch, and the admin row set
and columns stay in memory unchanged. -/
theorem toggle_admin_view_behavior (s : State) (o : Fetch (Option (List Row))) :
    (s.showAdmin = false →
       toggleAdminView s o = openAdmin s o ∧
       (toggleAdminView s o).1.showAdmin = true ∧
       (toggleAdminView s o).2 = [Eff.listRows "email" true] ∧
       (∀ rows, o = Fetch.ok (some rows) →
          (toggleAdminView s o).1.adminRows = rows)) ∧
    (s.showAdmin = true →
       (toggleAdminView s o).1.adminRows = s.adminRows ∧
       (toggleAdminView s o).1.adminColumns = s.adminColumns ∧
       (toggleAdminView s o).1.showAdmin = false ∧
       (toggleAdminView s o).2 = []) := by
  constructor
  · intro hoff
    have h1 : toggleAdminView s o = openAdmin s o := by
      simp [toggleAdminView, hoff]
    refine ⟨h1, ?_, ?_, ?_⟩
    · rw [h1]
      rcases o with a | m | _
      · rfl
      · rfl
      · rfl
    · rw [h1]
      rcases o with a | m | _
      · rfl
      · rfl
      · rfl
    · rintro rows rfl
      rw [h1]
      rfl
  · intro hon
    simp [toggleAdminView, hon]

theorem toggle_admin_view_behavior_witness :
    (toggleAdminView sAdminShown (Fetch.ok none)).1.adminRows =
      sAdminShown.adminRows ∧
    (toggleAdminView initState (Fetch.ok (some rowsSample))).1.adminRows =
      rowsSample := by
  refine ⟨((toggle_admin_view_behavior sAdminShown (Fetch.ok none)).2 rfl).1, ?_⟩
  exact ((toggle_admin_view_behavior initState
    (Fetch.ok (some rowsSample))).1 rfl).2.2.2 rowsSample rfl

/-- After a successful verify and user read, a fetched row whose identifier
derivation is empty produces the no-identifiers error and leaves the step
unchanged. -/
theorem submit_dataless_core (s : State) (o : CodeOracle)
    (u : Option (Option String)) (row : Row)
    (hsix : sixDigits (jsTrim s.code) = true)
    (hvr : o.verifyRes = Fetch.ok ())
    (hu : o.userRes = Fetch.ok u)
    (hrr : o.rowRes = Fetch.ok (some row))
    (hids : deriveIdentifiers row = []) :
    (handleCodeSubmit s o).1.step = s.step ∧
    (handleCodeSubmit s o).1.generalError = some noIdentifiersMsg := by
  have hne : jsTrim s.code ≠ "" := sixDigits_ne_empty _ hsix
  simp [handleCodeSubmit, validateCode, afterUserFetch, hne, hsix, hvr, hu,
    hrr, hids, List.isEmpty_iff]

/-- C1: membership in the derived identifier list is exactly membership of a
non-email, truthy (non-empty) column of the row, relabelled by replacing
underscores with spaces and with the value coerced to a string; and a row
with zero qualifying columns makes the verification attempt fail client-side
even though every backend call succeeded. -/
theorem identifier_derivation_exact (row : Row) (lab v : String) :
    ((lab, v) ∈ deriveIdentifiers row ↔
       ∃ k val, (k, val) ∈ row ∧ k ≠ "email" ∧ val.truthy = true ∧
         lab = underscoresToSpaces k ∧ v = val.toStr) ∧
    (∀ s o u, s.step = Step.code → sixDigits (jsTrim s.code) = true →
       o.verifyRes = Fetch.ok () → o.userRes = Fetch.ok u →
       o.rowRes = Fetch.ok (some row) → deriveIdentifiers row = [] →
       (handleCodeSubmit s o).1.step = Step.code ∧
       (handleCodeSubmit s o).1.generalError = some noIdentifiersMsg) := by
  constructor
  · constructor
    · intro hmem
      simp only [deriveIdentifiers, List.mem_map, List.mem_filter,
        Bool.and_eq_true, bne_iff_ne, ne_eq, Prod.mk.injEq] at hmem
      obtain ⟨⟨k, val⟩, ⟨hin, hk, htr⟩, hlab, hv⟩ := hmem
      exact ⟨k, val, hin, hk, htr, hlab.symm, hv.symm⟩
    · rintro ⟨k, val, hin, hk, htr, rfl, rfl⟩
      simp only [deriveIdentifiers, List.mem_map, List.mem_filter]
      exact ⟨(k, val), ⟨hin, by simp [hk, htr]⟩, rfl⟩
  · intro s o u hs hsix hvr hu hrr hids
    have h := submit_dataless_core s o u row hsix hvr hu hrr hids
    exact ⟨hs ▸ h.1, h.2⟩

def rowPlan : Row :=
  [("email", Value.vStr "user@school.edu"), ("plan_id", Value.vStr "X1"),
   ("notes", Value.vStr "")]

theorem identifier_derivation_exact_witness :
    ("plan id", "X1") ∈ deriveIdentifiers rowPlan ∧
    (handleCodeSubmit sAtCode oDataless).1.generalError =
      some noIdentifiersMsg := by
  constructor
  · exact (identifier_derivation_exact rowPlan "plan id" "X1").1.mpr
      ⟨"plan_id", Value.vStr "X1", by decide, by decide, by decide,
       by decide, by decide⟩
  · exact ((identifier_derivation_exact rowEmailOnly "x" "y").2 sAtCode
      oDataless (some (some "user@school.edu")) rfl (by decide) rfl rfl rfl
      (by decide)).2

/-- C2: when OTP verification succeeds but the row fetch fails (error,
exception, or null row) or the fetched row yields zero identifiers, a
general error is set (the fixed no-identifiers message in the
zero-identifier case), the state remains `code`, and `success` is not
reached. -/
theorem submitCode_dataless_stays_code (s : State) (o : CodeOracle)
    (u : Option (Option String))
    (hs : s.step = Step.code)
    (hv : sixDigits (jsTrim s.code) = true)
    (hok : o.verifyRes = Fetch.ok ())
    (hu : o.userRes = Fetch.ok u)
    (hrow : (∃ m, o.rowRes = Fetch.err m) ∨ o.rowRes = Fetch.ok none ∨
            o.rowRes = Fetch.threw ∨
            ∃ row, o.rowRes = Fetch.ok (some row) ∧
              deriveIdentifiers row = []) :
    (handleCodeSubmit s o).1.step = Step.code ∧
    (handleCodeSubmit s o).1.generalError.isSome = true ∧
    (∀ row, o.rowRes = Fetch.ok (some row) →
       (handleCodeSubmit s o).1.generalError = some noIdentifiersMsg) := by
  have hne : jsTrim s.code ≠ "" := sixDigits_ne_empty _ hv
  rcases hrow with ⟨m, hm⟩ | hnone | hthrew | ⟨row, hrr, hids⟩
  · refine ⟨?_, ?_, ?_⟩
    · simp [handleCodeSubmit, validateCode, afterUserFetch, hne, hv, hok,
        hu, hm, hs]
    · simp [handleCodeSubmit, validateCode, afterUserFetch, hne, hv, hok,
        hu, hm]
    · intro row hr
      rw [hm] at hr
      simp at hr
  · refine ⟨?_, ?_, ?_⟩
    · simp [handleCodeSubmit, validateCode, afterUserFetch, hne, hv, hok,
        hu, hnone, hs]
    · simp [handleCodeSubmit, validateCode, afterUserFetch, hne, hv, hok,
        hu, hnone]
    · intro row hr
      rw [hnone] at hr
      simp at hr
  · refine ⟨?_, ?_, ?_⟩
    · simp [handleCodeSubmit, validateCode, afterUserFetch, hne, hv, hok,
        hu, hthrew, hs]
    · simp [handleCodeSubmit, validateCode, afterUserFetch, hne, hv, hok,
        hu, hthrew]
    · intro row hr
      rw [hthrew] at hr
      simp at hr
  · have h := submit_dataless_core s o u row hv hok hu hrr hids
    refine ⟨hs ▸ h.1, by simp [h.2], ?_⟩
    intro row2 hr2
    exact h.2

theorem submitCode_dataless_stays_code_witness :
    (handleCodeSubmit sAtCode oDataless).1.step = Step.code ∧
    (handleCodeSubmit sAtCode oDataless).1.generalError.isSome = true := by
  have h := submitCode_dataless_stays_code sAtCode oDataless
    (some (some "user@school.edu")) rfl (by decide) rfl rfl
    (Or.inr (Or.inr (Or.inr ⟨rowEmailOnly, rfl, by decide⟩)))
  exact ⟨h.1, h.2.1⟩

/-- The pending-timer table holds at most the clearance timer currently
tracked by the component's timeout handle. -/
def timersConsistent (s : State) (ts : TimerSys) : Prop :=
  (∀ p ∈ ts.pending, some p.1 = s.copyTimeout) ∧ ts.pending.length ≤ 1

/-- A successful copy from a consistent state: the old timer (if any) is
cancelled and exactly one fresh clearance timer is pending. -/
theorem copy_success (s : State) (ts : TimerSys) (k v : String) (now : Nat)
    (hinv : timersConsistent s ts) :
    copyIdentifier s ts k v true now =
      ({ s with copiedKey := some k, copyTimeout := some ts.nextId },
       { nextId := ts.nextId + 1, pending := [(ts.nextId, now + 2000)] },
       [Eff.clipboardWrite v]) := by
  obtain ⟨hall, -⟩ := hinv
  cases hct : s.copyTimeout with
  | none =>
    have hnil : ts.pending = [] := by
      cases hp : ts.pending with
      | nil => rfl
      | cons q qs =>
        have hq := hall q (by rw [hp]; exact List.mem_cons_self q qs)
        rw [hct] at hq
        cases hq
    simp [copyIdentifier, hct, hnil]
  | some tid =>
    have hfil : ts.pending.filter (fun p => p.1 != tid) = [] := by
      refine List.filter_eq_nil_iff.mpr ?_
      intro p hp
      have hq := hall p hp
      rw [hct] at hq
      have hq2 : p.1 = tid := by injection hq
      simp [hq2]
    simp [copyIdentifier, hct, hfil]

/-- C6: a second successful copy within the 2000 ms window supersedes the
first — only the second key is marked copied and exactly one clearance
timer (the fresh one) is pending — after which that timer's expiry empties
the copy state; and a failed clipboard write changes nothing and surfaces no
error. -/
theorem copy_supersede_then_clear (s : State) (ts : TimerSys)
    (a va b vb : String) (t1 t2 : Nat) (s1 s2 : State) (ts1 ts2 : TimerSys)
    (e1 e2 : List Eff)
    (hinv : timersConsistent s ts) (hwithin : t2 < t1 + 2000)
    (h1 : copyIdentifier s ts a va true t1 = (s1, ts1, e1))
    (h2 : copyIdentifier s1 ts1 b vb true t2 = (s2, ts2, e2)) :
    s2.copiedKey = some b ∧
    ts2.pending = [(ts.nextId + 1, t2 + 2000)] ∧
    s2.copyTimeout = some (ts.nextId + 1) ∧
    (fireTimer s2 ts2 (ts.nextId + 1)).1.copiedKey = none ∧
    (fireTimer s2 ts2 (ts.nextId + 1)).2.pending = [] ∧
    (∀ s0 ts0 k v t, copyIdentifier s0 ts0 k v false t =
       (s0, ts0, [Eff.clipboardWrite v])) := by
  rw [copy_success s ts a va t1 hinv] at h1
  simp only [Prod.mk.injEq] at h1
  obtain ⟨hs1, hts1, -⟩ := h1
  have hinv2 : timersConsistent s1 ts1 := by
    rw [← hs1, ← hts1]
    constructor
    · intro p hp
      simp only [List.mem_singleton] at hp
      rw [hp]
    · simp
  rw [copy_success s1 ts1 b vb t2 hinv2] at h2
  simp only [Prod.mk.injEq] at h2
  obtain ⟨hs2, hts2, -⟩ := h2
  rw [← hs2, ← hts2, ← hts1, ← hs1]
  refine ⟨rfl, rfl, rfl, ?_, ?_, ?_⟩
  · simp [fireTimer]
  · simp [fireTimer]
  · intro s0 ts0 k v t
    simp [copyIdentifier]

def tsEmpty : TimerSys := ⟨0, []⟩

theorem copy_supersede_then_clear_witness :
    (copyIdentifier (copyIdentifier initState tsEmpty "x" "1" true 0).1
        (copyIdentifier initState tsEmpty "x" "1" true 0).2.1
        "y" "2" true 100).1.copiedKey = some "y" ∧
    (copyIdentifier (copyIdentifier initState tsEmpty "x" "1" true 0).1
        (copyIdentifier initState tsEmpty "x" "1" true 0).2.1
        "y" "2" true 100).2.1.pending = [(1, 2100)] := by
  have h := copy_supersede_then_clear initState tsEmpty "x" "1" "y" "2" 0 100
    (copyIdentifier initState tsEmpty "x" "1" true 0).1
    (copyIdentifier (copyIdentifier initState tsEmpty "x" "1" true 0).1
      (copyIdentifier initState tsEmpty "x" "1" true 0).2.1 "y" "2" true 100).1
    (copyIdentifier initState tsEmpty "x" "1" true 0).2.1
    (copyIdentifier (copyIdentifier initState tsEmpty "x" "1" true 0).1
      (copyIdentifier initState tsEmpty "x" "1" true 0).2.1 "y" "2" true 100).2.1
    (copyIdentifier initState tsEmpty "x" "1" true 0).2.2
    (copyIdentifier (copyIdentifier initState tsEmpty "x" "1" true 0).1
      (copyIdentifier initState tsEmpty "x" "1" true 0).2.1 "y" "2" true 100).2.2
    (by constructor
        · intro p hp
          simp [tsEmpty] at hp
        · simp [tsEmpty])
    (by decide) rfl rfl
  exact ⟨h.1, h.2.1⟩

end MemberIdShare
